import Mathlib

/-!
Verification of the identifier-normalization and multi-source reconciliation
engine of the PokemonTCGPDatabase repository.

The Python sources are shallowly embedded: strings are Lean `String`
(a structure over `List Char`, adequate for the ASCII data this program
manipulates), Python `dict`s are association lists with Python's
insert-or-update-in-place semantics, and every function is translated
from the corresponding Python definition:

* `PokemonCard.from_json`, `merge_cards`, `load_existing_cards`, and the
  missing-id scan of `main` come from `CardDataScrapper.py`;
* `build_sync_map` (with its inner `normalize_expansion` and
  `get_expansion_from_value`) comes from `script/SyncGenerator.py`;
* `normalize_id_for_cards` and the update-application loop of the
  `__main__` block come from `script/LimitlessScrapper.py`.
-/

/-! ## Python string primitives (ASCII model) -/

/-- Python whitespace characters stripped by `str.strip()` (ASCII range):
space, tab, newline, vertical tab, form feed, carriage return. -/
def wsChar (c : Char) : Bool :=
  c.toNat = 32 || c.toNat = 9 || c.toNat = 10 || c.toNat = 11 || c.toNat = 12 || c.toNat = 13

/-- ASCII decimal digit test, as used by Python's `str.isdigit` on ASCII data. -/
def isDig (c : Char) : Bool := 48 ≤ c.toNat && c.toNat ≤ 57

/-- ASCII uppercase of one character, as `str.upper()` acts on ASCII data. -/
def upChar (c : Char) : Char :=
  if 97 ≤ c.toNat ∧ c.toNat ≤ 122 then Char.ofNat (c.toNat - 32) else c

/-- `str.strip()` on a character list: drop whitespace from both ends. -/
def pyStripList (l : List Char) : List Char :=
  ((l.dropWhile wsChar).reverse.dropWhile wsChar).reverse

/-- `str.strip()`. -/
def pyStrip (s : String) : String := ⟨pyStripList s.data⟩

/-- `str.upper()`. -/
def pyUpper (s : String) : String := ⟨s.data.map upChar⟩

/-- `str.startswith(pat)`: `isPrefOf pat l` is true when `pat` is a prefix of `l`. -/
def isPrefOf : List Char → List Char → Bool
  | [], _ => true
  | _ :: _, [] => false
  | a :: as, b :: bs => a = b && isPrefOf as bs

/-- Python's `pat in s` substring test. -/
def containsSeq (pat : List Char) : List Char → Bool
  | [] => isPrefOf pat []
  | c :: rest => isPrefOf pat (c :: rest) || containsSeq pat rest

/-- `str.replace("PROMO-", "P-")`: replace every occurrence, scanning left to
right without overlap, exactly as Python's `str.replace`. -/
def replPromoList : List Char → List Char
  | 'P' :: 'R' :: 'O' :: 'M' :: 'O' :: '-' :: rest => 'P' :: '-' :: replPromoList rest
  | c :: rest => c :: replPromoList rest
  | [] => []

/-- `str.replace("PROMO", "P")` (the hyphen-free variant used on card names). -/
def replPromoWord : List Char → List Char
  | 'P' :: 'R' :: 'O' :: 'M' :: 'O' :: rest => 'P' :: replPromoWord rest
  | c :: rest => c :: replPromoWord rest
  | [] => []

/-- `str.zfill(3)`: left-pad with `'0'` to width at least 3. -/
def zfill3 (l : List Char) : List Char := List.replicate (3 - l.length) '0' ++ l

/-- Python `int()` on a string of decimal digits. -/
def digitsToNat (l : List Char) : Nat := l.foldl (fun a c => 10 * a + (c.toNat - 48)) 0

/-- The formatting `f"{n:03d}"` for a natural number. -/
def pad3 (n : Nat) : List Char := zfill3 (toString n).data

/-! ## Data model (`CardDataScrapper.py`) -/

/-- One raw upstream record, with the fields `PokemonCard.from_json` reads via
`obj.get(...)`.  Numeric fields arrive through `str(...)`, so they are modelled
as the resulting strings; absent fields are the documented defaults
(empty string / empty list / false). -/
structure RawCard where
  set : String
  number : String
  name : String
  rarity : String
  packs : List String
  element : String
  type : String
  isFoil : Bool
deriving DecidableEq, Repr

/-- The canonical card schema (the `PokemonCard` dataclass). -/
structure PokemonCard where
  series : String
  set : String
  number : Nat
  id : String
  name : String
  rarity : String
  image : String
  packs : List String
  element : String
  type : String
  isFoil : Bool
deriving DecidableEq, Repr

/-- The `POCKETDB_IMAGE_URL` constant. -/
def POCKETDB_IMAGE_URL : String :=
  "https://raw.githubusercontent.com/flibustier/pokemon-tcg-exchange/refs/heads/main/public/images/cards-by-set/"

/-- The padded-number computation of `PokemonCard.from_json` (lines 40-48):
if the stripped number string is all digits, `zfill(3)`; otherwise extract the
digit characters and `zfill(3)` them, falling back to `"000"`. -/
def num_pad_of (number : String) : List Char :=
  let num_str := pyStripList number.data
  if num_str ≠ [] ∧ num_str.all isDig then zfill3 num_str
  else
    let digits := num_str.filter isDig
    if digits ≠ [] then zfill3 digits else ['0', '0', '0']

/-- The integer-number computation of the same lines: `int(num_str)` when all
digits, otherwise `int(digits)` for the extracted digits, defaulting to 0. -/
def number_value_of (number : String) : Nat :=
  let num_str := pyStripList number.data
  if num_str ≠ [] ∧ num_str.all isDig then digitsToNat num_str
  else
    let digits := num_str.filter isDig
    if digits ≠ [] then digitsToNat digits else 0

/-- The set-code normalization pipeline of `PokemonCard.from_json`
(lines 38, 50-55): strip, conditionally rewrite a leading `"PROMO-"`
(Python's `replace` rewrites every occurrence once the prefix test passes),
then uppercase. -/
def normalize_set (x : String) : String :=
  let set_code := pyStrip x
  let set_code := if isPrefOf "PROMO-".data set_code.data then ⟨replPromoList set_code.data⟩ else set_code
  pyUpper set_code

/-- The series derivation of `PokemonCard.from_json` (lines 57-62). -/
def series_of (set_code : String) : String :=
  if set_code ≠ "" ∧ set_code.data.contains '-' then
    let seg := (set_code.splitOn "-").getLastD ""
    ⟨seg.data.take 1⟩
  else ⟨set_code.data.take 1⟩

/-- `PokemonCard.from_json` (`CardDataScrapper.py`, lines 36-88). -/
def from_json (obj : RawCard) : PokemonCard :=
  let original_set_code := pyStrip obj.set
  let set_code := normalize_set obj.set
  let num_pad := num_pad_of obj.number
  let number_value := number_value_of obj.number
  let series := series_of set_code
  let id_val : String := set_code ++ "-" ++ ⟨num_pad⟩
  let name0 := pyStrip obj.name
  let name := if containsSeq "PROMO".data name0.data then ⟨replPromoWord name0.data⟩ else name0
  let image := POCKETDB_IMAGE_URL ++ original_set_code ++ "/" ++ obj.number ++ ".webp"
  { series := series
    set := set_code
    number := number_value
    id := id_val
    name := name
    rarity := pyStrip obj.rarity
    image := image
    packs := obj.packs
    element := pyStrip obj.element
    type := pyStrip obj.type
    isFoil := obj.isFoil }

/-! ## Python dictionaries -/

/-- Python `d.get(k)` / `k in d` on an association list with unique keys. -/
def dfind {α : Type} (m : List (String × α)) (k : String) : Option α :=
  (m.find? (fun p => decide (p.1 = k))).map (fun p => p.2)

/-- Python `d[k] = v`: update the existing entry in place, else append. -/
def dinsert {α : Type} (m : List (String × α)) (k : String) (v : α) : List (String × α) :=
  if (m.find? (fun p => decide (p.1 = k))).isSome then
    m.map (fun p => if p.1 = k then (k, v) else p)
  else m ++ [(k, v)]

/-- Python `s.add(x)` on a set modelled as a duplicate-free list. -/
def insertStr (s : List String) (x : String) : List String :=
  if x ∈ s then s else s ++ [x]

/-- Python set union `a | b`. -/
def unionStr (a b : List String) : List String := b.foldl insertStr a

/-! ## Merge engine and loaders (`CardDataScrapper.py`) -/

/-- The body of the `merge_cards` loop (lines 217-222): skip records whose
stripped id is empty, otherwise write when overriding or when the key is new. -/
def merge_step (override : Bool) (merged : List (String × PokemonCard)) (c : PokemonCard) :
    List (String × PokemonCard) :=
  let cid := pyStrip c.id
  if cid = "" then merged
  else if override || (dfind merged cid).isNone then dinsert merged cid c
  else merged

/-- `merge_cards` (lines 215-223). -/
def merge_cards (existing : List (String × PokemonCard)) (new_cards : List PokemonCard)
    (override : Bool) : List (String × PokemonCard) :=
  new_cards.foldl (merge_step override) existing

/-- The body of the `load_existing_cards` loop (lines 196-209): skip entries
with a blank id, re-normalize the stored `set` and (when changed) `id` fields,
and key the entry by the normalized id. -/
def load_step (result : List (String × PokemonCard)) (item : PokemonCard) :
    List (String × PokemonCard) :=
  let cid := pyStrip item.id
  if cid = "" then result
  else
    let norm_id := pyUpper ⟨replPromoList cid.data⟩
    let item1 := if item.set ≠ "" then { item with set := pyUpper ⟨replPromoList item.set.data⟩ } else item
    let item2 := if norm_id ≠ cid then { item1 with id := norm_id } else item1
    dinsert result norm_id item2

/-- `load_existing_cards` (lines 187-212), applied to an already-parsed list of
records (the JSON layer is the external collaborator). -/
def load_existing_cards (data : List PokemonCard) : List (String × PokemonCard) :=
  data.foldl load_step []

/-- The missing-id normalization of `main` (line 265): `c.id.replace("PROMO-", "P-").upper()`. -/
def normIdMain (cid : String) : String := pyUpper ⟨replPromoList cid.data⟩

/-- The body of the missing-type scan of `main` (lines 261-266). -/
def scan_step (s : List String) (c : PokemonCard) : List String :=
  if pyStrip c.type = "" ∧ c.id ≠ "" then insertStr s (normIdMain c.id) else s

/-- The missing-type scan of `main` (lines 259-266): collect the normalized ids
of cards whose stripped `type` is empty and whose `id` is truthy. -/
def scan_missing (batch : List PokemonCard) : List String :=
  batch.foldl scan_step []

/-- The missing-set reconciliation of `main` (lines 267-270): union the
previously persisted ids with the newly detected ones (when nothing new is
detected the persisted set is left unchanged, which the union also yields). -/
def reconcile_missing (existing_missing : List String) (batch : List PokemonCard) : List String :=
  unionStr existing_missing (scan_missing batch)

/-! ## Sync builder (`script/SyncGenerator.py`) -/

/-- `get_expansion_from_value` (lines 38-41): the segment before the first
hyphen, or the whole string when there is none. -/
def get_expansion_from_value (v : String) : String := ⟨v.data.takeWhile (fun c => c ≠ '-')⟩

/-- `normalize_expansion` (lines 43-49): strip, uppercase, and rewrite a
leading `"PROMO-"` to `"P-"` by splitting at the first hyphen. -/
def normalize_expansion (exp : String) : String :=
  let s := pyStrip exp
  let up := pyUpper s
  if isPrefOf "PROMO-".data up.data then ⟨'P' :: '-' :: ((up.data.dropWhile (fun c => c ≠ '-')).drop 1)⟩
  else up

/-- One reference entry as consumed by the duplicate-resolution core of
`build_sync_map`: the external key, the raw expansion id, and the card number
already recovered from the location string (URL parsing is the out-of-scope
collaborator of spec section 4.6). -/
structure RefItem where
  cardDefKey : String
  expansionId : String
  number : Nat
deriving DecidableEq, Repr

/-- One iteration of the `build_sync_map` loop (lines 51-86): skip falsy keys
or expansions, record an unseen key, and otherwise apply the A4B de-preference
rule (both `pass` branches keep the mapping unchanged). -/
def sync_step (sync : List (String × String)) (item : RefItem) : List (String × String) :=
  if item.cardDefKey = "" ∨ item.expansionId = "" then sync
  else
    let normalized_expansion := normalize_expansion item.expansionId
    let candidate_value : String := normalized_expansion ++ "-" ++ ⟨pad3 item.number⟩
    match dfind sync item.cardDefKey with
    | none => dinsert sync item.cardDefKey candidate_value
    | some existing_value =>
      let existing_expansion := pyUpper (get_expansion_from_value existing_value)
      if existing_expansion = "A4B" ∧ normalized_expansion ≠ "A4B" then
        dinsert sync item.cardDefKey candidate_value
      else sync

/-- `build_sync_map` (lines 35-88). -/
def build_sync_map (ref_items : List RefItem) : List (String × String) :=
  ref_items.foldl sync_step []

/-! ## Enrichment resolver (`script/LimitlessScrapper.py`) -/

/-- `_normalize_id_for_cards` (lines 49-51): unconditional `replace`, no
uppercasing. -/
def normalize_id_for_cards (cid : String) : String := ⟨replPromoList cid.data⟩

/-- One update produced by the scraping loop: a new `type` and optionally a new
`element`. -/
structure CardUpdate where
  newType : Option String
  newElement : Option String
deriving DecidableEq, Repr

/-- One step of building `id_to_index` (line 183). -/
def idx_step (d : List (String × Nat)) (p : Nat × PokemonCard) : List (String × Nat) :=
  dinsert d p.2.id p.1

/-- The `id_to_index` dictionary of the `__main__` block (line 183): id of each
card to its position, later positions winning on duplicate ids. -/
def id_to_index (cards : List PokemonCard) : List (String × Nat) :=
  cards.enum.foldl idx_step []

/-- In-place list update `l[i] = f l[i]`. -/
def listModify {α : Type} (l : List α) (i : Nat) (f : α → α) : List α :=
  match l, i with
  | [], _ => []
  | x :: xs, 0 => f x :: xs
  | x :: xs, Nat.succ n => x :: listModify xs n f

/-- Applying one update dict to a card (lines 193-196). -/
def apply_change (c : PokemonCard) (ch : CardUpdate) : PokemonCard :=
  let c1 := match ch.newType with
    | some t => { c with type := t }
    | none => c
  match ch.newElement with
  | some e => { c1 with element := e }
  | none => c1

/-- One iteration of the update-application loop (lines 184-198): look the key
up exactly, then with the promo-normalized key; on a miss skip the entry; on a
hit patch the card in place and record the key as updated. -/
def update_step (idx : List (String × Nat)) (st : List PokemonCard × List String)
    (u : String × CardUpdate) : List PokemonCard × List String :=
  match dfind idx u.1 with
  | some i => (listModify st.1 i (fun c => apply_change c u.2), insertStr st.2 u.1)
  | none =>
    match dfind idx (normalize_id_for_cards u.1) with
    | some i => (listModify st.1 i (fun c => apply_change c u.2), insertStr st.2 u.1)
    | none => st

/-- The update-application loop of the `__main__` block (lines 179-198). -/
def apply_updates (cards : List PokemonCard) (updates : List (String × CardUpdate)) :
    List PokemonCard × List String :=
  updates.foldl (update_step (id_to_index cards)) (cards, [])

/-- The missing-set shrink of lines 210-215: keep exactly the supplied ids that
were not successfully matched. -/
def remaining_missing (missing_ids updated_ids : List String) : List String :=
  missing_ids.filter (fun cid => decide (cid ∉ updated_ids))

/-! ## Persisted ordering (`main`, line 277) -/

/-- Python string `<`: lexicographic comparison by code point, a proper prefix
ordering before anything it prefixes. -/
def pyLtList : List Char → List Char → Bool
  | _, [] => false
  | [], _ :: _ => true
  | a :: as, b :: bs =>
    if a.toNat < b.toNat then true
    else if b.toNat < a.toNat then false
    else pyLtList as bs

/-- Python `<=` on strings, as the sort in `main` guarantees between
consecutive elements. -/
def pyLe (a b : String) : Bool := !(pyLtList b.data a.data)

/-- Insertion of a card into a list sorted by id. -/
def insertById (c : PokemonCard) : List PokemonCard → List PokemonCard
  | [] => [c]
  | x :: xs => if pyLe x.id c.id then x :: insertById c xs else c :: x :: xs

/-- The sort `sorted(merged_map.values(), key=lambda x: str(x.get("id", "")))`
of `main` (line 277), realized as an insertion sort over the same order. -/
def sortById (l : List PokemonCard) : List PokemonCard := l.foldr insertById []

/-- The persisted catalog sequence written by `main` (lines 277-279). -/
def persisted_catalog (merged : List (String × PokemonCard)) : List PokemonCard :=
  sortById (merged.map (fun p => p.2))

/-! ## Auxiliary predicates and concrete fixtures -/

/-- A character list whose first and last characters (when present) are not
whitespace, so that `str.strip()` leaves it unchanged. -/
def cleanEnds (l : List Char) : Prop :=
  (∀ a, l.head? = some a → wsChar a = false) ∧ (∀ a, l.getLast? = some a → wsChar a = false)

/-- An already-canonical catalog entry: the id is non-blank, unchanged by
stripping, and a fixed point of the `PROMO-`→`P-` rewrite plus uppercasing;
the set code is empty or likewise a fixed point. -/
def canonicalCard (c : PokemonCard) : Prop :=
  pyStrip c.id = c.id ∧ c.id ≠ "" ∧ pyUpper ⟨replPromoList c.id.data⟩ = c.id ∧
    (c.set = "" ∨ pyUpper ⟨replPromoList c.set.data⟩ = c.set)

instance (c : PokemonCard) : Decidable (canonicalCard c) := by
  unfold canonicalCard
  infer_instance

/-- A raw record with only set, number and type populated. -/
def mkRaw (s n t : String) : RawCard :=
  { set := s, number := n, name := "", rarity := "", packs := [], element := "", type := t, isFoil := false }

/-- A canonicalized card `A1-001` with type `"pokemon"`. -/
def cardOld : PokemonCard := from_json (mkRaw "A1" "1" "pokemon")

/-- A canonicalized card `A1-001` with type `"trainer"`. -/
def cardNew : PokemonCard := from_json (mkRaw "A1" "1" "trainer")

/-- A canonicalized card `A2-005` with blank type. -/
def cardOther : PokemonCard := from_json (mkRaw "A2" "5" "")

/-- A record whose id field is whitespace only. -/
def cardBlank : PokemonCard := { cardOld with id := " " }

/-- A persisted entry whose uppercase id contains `"PROMO-"` in its interior
(not as a prefix). -/
def cardLegacy : PokemonCard := { cardOld with id := "APROMO-001" }

/-! ## Lemmas about the string primitives -/

theorem promo_data : "PROMO-".data = ['P', 'R', 'O', 'M', 'O', '-'] := rfl

theorem isPrefOf_iff {p l : List Char} : isPrefOf p l = true ↔ ∃ t, l = p ++ t := by
  induction p generalizing l with
  | nil =>
    constructor
    · intro _; exact ⟨l, rfl⟩
    · intro _; rfl
  | cons a as ih =>
    cases l with
    | nil =>
      constructor
      · intro h; exact absurd h (by simp [isPrefOf])
      · rintro ⟨t, ht⟩; exact absurd ht (by simp)
    | cons b bs =>
      simp only [isPrefOf, Bool.and_eq_true, decide_eq_true_eq, ih, List.cons_append,
        List.cons.injEq]
      constructor
      · rintro ⟨rfl, t, rfl⟩; exact ⟨t, rfl, rfl⟩
      · rintro ⟨t, rfl, rfl⟩; exact ⟨rfl, t, rfl⟩

theorem replPromo_nil : replPromoList [] = [] := rfl

theorem replPromo_promo (r : List Char) :
    replPromoList ('P' :: 'R' :: 'O' :: 'M' :: 'O' :: '-' :: r) = 'P' :: '-' :: replPromoList r :=
  rfl

theorem promoList_append (t : List Char) :
    ['P', 'R', 'O', 'M', 'O', '-'] ++ t = 'P' :: 'R' :: 'O' :: 'M' :: 'O' :: '-' :: t := rfl

theorem isPrefOf_promo_false_of_shape {c : Char} {rest : List Char}
    (hneg : ∀ t, c = 'P' → rest = 'R' :: 'O' :: 'M' :: 'O' :: '-' :: t → False) :
    isPrefOf ['P', 'R', 'O', 'M', 'O', '-'] (c :: rest) = false := by
  cases hb : isPrefOf ['P', 'R', 'O', 'M', 'O', '-'] (c :: rest)
  · rfl
  · exfalso
    obtain ⟨u, hu⟩ := isPrefOf_iff.mp hb
    rw [promoList_append] at hu
    injection hu with h1 h2
    exact hneg u h1 h2

theorem replPromo_cons_of_not {c : Char} {r : List Char}
    (h : isPrefOf ['P', 'R', 'O', 'M', 'O', '-'] (c :: r) = false) :
    replPromoList (c :: r) = c :: replPromoList r := by
  apply replPromoList.eq_2
  intro rest1 hc hr
  subst hc; subst hr
  simp [isPrefOf] at h

theorem replPromo_eq_nil_iff {l : List Char} : replPromoList l = [] ↔ l = [] := by
  cases l with
  | nil => simp [replPromo_nil]
  | cons c t =>
    constructor
    · intro hC
      by_cases hp : isPrefOf ['P', 'R', 'O', 'M', 'O', '-'] (c :: t) = true
      · obtain ⟨u, hu⟩ := isPrefOf_iff.mp hp
        rw [promoList_append] at hu
        rw [hu, replPromo_promo] at hC
        simp at hC
      · rw [replPromo_cons_of_not (by simpa using hp)] at hC
        simp at hC
    · intro h; simp at h

theorem replPromo_head? (l : List Char) : (replPromoList l).head? = l.head? := by
  induction l using replPromoList.induct with
  | case1 rest ih => rfl
  | case2 c rest hneg ih =>
    rw [replPromo_cons_of_not (isPrefOf_promo_false_of_shape hneg)]
    rfl
  | case3 => rfl

theorem replPromo_getLast? (l : List Char) : (replPromoList l).getLast? = l.getLast? := by
  induction l using replPromoList.induct with
  | case1 rest ih =>
    rw [replPromo_promo]
    rw [show ('P' :: '-' :: replPromoList rest) = ['P', '-'] ++ replPromoList rest from rfl,
      List.getLast?_append, ih,
      show ('P' :: 'R' :: 'O' :: 'M' :: 'O' :: '-' :: rest) =
        ['P', 'R', 'O', 'M', 'O', '-'] ++ rest from rfl,
      List.getLast?_append]
    rfl
  | case2 c rest hneg ih =>
    rw [replPromo_cons_of_not (isPrefOf_promo_false_of_shape hneg)]
    rw [show (c :: replPromoList rest) = [c] ++ replPromoList rest from rfl,
      List.getLast?_append, ih,
      show (c :: rest) = [c] ++ rest from rfl, List.getLast?_append]
  | case3 => rfl

theorem replPromo_of_not_contains {l : List Char}
    (h : containsSeq ['P', 'R', 'O', 'M', 'O', '-'] l = false) : replPromoList l = l := by
  induction l using replPromoList.induct with
  | case1 rest ih => simp [containsSeq, isPrefOf] at h
  | case2 c rest hneg ih =>
    rw [containsSeq, Bool.or_eq_false_iff] at h
    rw [replPromo_cons_of_not (isPrefOf_promo_false_of_shape hneg), ih h.2]
  | case3 => rfl

theorem head?_dropWhile_not {α : Type} (p : α → Bool) (l : List α) :
    ∀ a, (l.dropWhile p).head? = some a → p a = false := by
  induction l with
  | nil => intro a h; simp [List.dropWhile] at h
  | cons c t ih =>
    intro a h
    rw [List.dropWhile_cons] at h
    by_cases hc : p c = true
    · rw [if_pos hc] at h; exact ih a h
    · rw [if_neg hc] at h
      simp only [List.head?_cons, Option.some.injEq] at h
      subst h
      exact Bool.not_eq_true _ ▸ hc

theorem dropWhile_eq_self_of_head {α : Type} (p : α → Bool) (l : List α)
    (h : ∀ a, l.head? = some a → p a = false) : l.dropWhile p = l := by
  cases l with
  | nil => rfl
  | cons c t => rw [List.dropWhile_cons, if_neg]; simp [h c rfl]

theorem pyStripList_eq_self {l : List Char} (h : cleanEnds l) : pyStripList l = l := by
  unfold pyStripList
  rw [dropWhile_eq_self_of_head _ _ h.1]
  rw [dropWhile_eq_self_of_head _ _ ?hrev, List.reverse_reverse]
  case hrev =>
    intro a ha
    rw [List.head?_reverse] at ha
    exact h.2 a ha

theorem cleanEnds_pyStripList (l : List Char) : cleanEnds (pyStripList l) := by
  constructor
  · intro a ha
    unfold pyStripList at ha
    rw [List.head?_reverse] at ha
    obtain ⟨pre, hpre⟩ := List.dropWhile_suffix (l := (List.dropWhile wsChar l).reverse) wsChar
    have hY : ((List.dropWhile wsChar l).reverse).getLast? = some a := by
      rw [← hpre, List.getLast?_append, ha]; rfl
    rw [List.getLast?_eq_head?_reverse, List.reverse_reverse] at hY
    exact head?_dropWhile_not _ _ a hY
  · intro a ha
    unfold pyStripList at ha
    rw [List.getLast?_eq_head?_reverse, List.reverse_reverse] at ha
    exact head?_dropWhile_not _ _ a ha

theorem toNat_ofNat_up {n : Nat} (h1 : 65 ≤ n) (h2 : n ≤ 90) : (Char.ofNat n).toNat = n := by
  interval_cases n <;> decide

theorem wsChar_upChar (c : Char) : wsChar (upChar c) = wsChar c := by
  unfold upChar
  split
  · rename_i h
    have ht := toNat_ofNat_up (n := c.toNat - 32) (by omega) (by omega)
    have lhs : wsChar (Char.ofNat (c.toNat - 32)) = false := by
      simp only [wsChar, ht, Bool.or_eq_false_iff, decide_eq_false_iff_not]
      omega
    have rhs : wsChar c = false := by
      simp only [wsChar, Bool.or_eq_false_iff, decide_eq_false_iff_not]
      omega
    rw [lhs, rhs]
  · rfl

theorem upChar_upChar (c : Char) : upChar (upChar c) = upChar c := by
  by_cases h : 97 ≤ c.toNat ∧ c.toNat ≤ 122
  · have e1 : upChar c = Char.ofNat (c.toNat - 32) := by unfold upChar; rw [if_pos h]
    have ht := toNat_ofNat_up (n := c.toNat - 32) (by omega) (by omega)
    have e2 : upChar (Char.ofNat (c.toNat - 32)) = Char.ofNat (c.toNat - 32) := by
      unfold upChar
      apply if_neg
      rw [ht]
      omega
    rw [e1, e2]
  · have e1 : upChar c = c := by unfold upChar; exact if_neg h
    rw [e1, e1]

theorem mapUp_mapUp (l : List Char) : (l.map upChar).map upChar = l.map upChar := by
  induction l with
  | nil => rfl
  | cons c t ih => simp [upChar_upChar, ih]

theorem cleanEnds_mapUp {l : List Char} (h : cleanEnds l) : cleanEnds (l.map upChar) := by
  constructor
  · intro a ha
    rw [List.head?_map] at ha
    cases hb : l.head? with
    | none => rw [hb] at ha; simp at ha
    | some b =>
      rw [hb] at ha
      simp only [Option.map_some', Option.some.injEq] at ha
      rw [← ha, wsChar_upChar]
      exact h.1 b hb
  · intro a ha
    rw [List.getLast?_map] at ha
    cases hb : l.getLast? with
    | none => rw [hb] at ha; simp at ha
    | some b =>
      rw [hb] at ha
      simp only [Option.map_some', Option.some.injEq] at ha
      rw [← ha, wsChar_upChar]
      exact h.2 b hb

theorem cleanEnds_replPromo {l : List Char} (h : cleanEnds l) : cleanEnds (replPromoList l) := by
  constructor
  · intro a ha; rw [replPromo_head? l] at ha; exact h.1 a ha
  · intro a ha; rw [replPromo_getLast? l] at ha; exact h.2 a ha

/-! ## Dictionary lemmas -/

theorem dfind_cons {α : Type} (p : String × α) (m : List (String × α)) (k : String) :
    dfind (p :: m) k = if p.1 = k then some p.2 else dfind m k := by
  unfold dfind
  rw [List.find?_cons]
  by_cases h : p.1 = k
  · simp [h]
  · simp [h]

theorem find?_mapUpdate_eq {α : Type} (m : List (String × α)) (k : String) (v : α)
    (hs : (m.find? (fun p => decide (p.1 = k))).isSome = true) :
    (m.map (fun p => if p.1 = k then (k, v) else p)).find? (fun p => decide (p.1 = k)) =
      some (k, v) := by
  induction m with
  | nil => simp at hs
  | cons p t ih =>
    rw [List.map_cons]
    by_cases hp : p.1 = k
    · rw [if_pos hp, List.find?_cons]
      simp
    · rw [if_neg hp, List.find?_cons]
      have hpd : decide (p.1 = k) = false := by simp [hp]
      rw [hpd]
      apply ih
      rw [List.find?_cons] at hs
      rw [hpd] at hs
      exact hs

theorem find?_mapUpdate_ne {α : Type} (m : List (String × α)) (k : String) (v : α) (k' : String)
    (hk : k' ≠ k) :
    (m.map (fun p => if p.1 = k then (k, v) else p)).find? (fun p => decide (p.1 = k')) =
      m.find? (fun p => decide (p.1 = k')) := by
  induction m with
  | nil => rfl
  | cons p t ih =>
    rw [List.map_cons]
    by_cases hp : p.1 = k
    · rw [if_pos hp, List.find?_cons, List.find?_cons]
      have h1 : decide (((k, v) : String × α).1 = k') = false := by
        simp
        exact fun h => hk h.symm
      have h2 : decide (p.1 = k') = false := by
        simp [hp]
        exact fun h => hk h.symm
      rw [h1, h2]
      exact ih
    · rw [if_neg hp, List.find?_cons, List.find?_cons]
      by_cases hpk : p.1 = k'
      · simp [hpk]
      · have h2 : decide (p.1 = k') = false := by simp [hpk]
        rw [h2]
        exact ih

theorem dfind_dinsert {α : Type} (m : List (String × α)) (k : String) (v : α) (k' : String) :
    dfind (dinsert m k v) k' = if k' = k then some v else dfind m k' := by
  unfold dinsert
  by_cases hs : (m.find? (fun p => decide (p.1 = k))).isSome = true
  · rw [if_pos hs]
    by_cases hk : k' = k
    · subst hk
      rw [if_pos rfl]
      unfold dfind
      rw [find?_mapUpdate_eq m k' v hs]
      rfl
    · rw [if_neg hk]
      unfold dfind
      rw [find?_mapUpdate_ne m k v k' hk]
  · rw [if_neg hs]
    unfold dfind
    rw [List.find?_append]
    by_cases hk : k' = k
    · subst hk
      have h0 : m.find? (fun p => decide (p.1 = k')) = none := by
        cases hfind : m.find? (fun p => decide (p.1 = k')) with
        | none => rfl
        | some p => rw [hfind] at hs; simp at hs
      rw [h0, if_pos rfl]
      simp [List.find?]
    · rw [if_neg hk]
      have h1 : List.find? (fun p : String × α => decide (p.1 = k')) [(k, v)] = none := by
        have hd : decide (((k, v) : String × α).1 = k') = false := by
          simp
          exact fun h => hk h.symm
        rw [List.find?_cons, hd]
        rfl
      rw [h1, Option.or_none]

theorem dfind_isSome_dinsert {α : Type} (m : List (String × α)) (k : String) (v : α) (k' : String) :
    (dfind (dinsert m k v) k').isSome = ((dfind m k').isSome || decide (k' = k)) := by
  rw [dfind_dinsert]
  by_cases hk : k' = k
  · simp [hk]
  · simp [hk]

theorem mem_insertStr {s : List String} {x y : String} :
    y ∈ insertStr s x ↔ y ∈ s ∨ y = x := by
  unfold insertStr
  by_cases h : x ∈ s
  · rw [if_pos h]
    constructor
    · exact Or.inl
    · rintro (hy | rfl)
      · exact hy
      · exact h
  · rw [if_neg h]
    simp

theorem mem_unionStr {a b : List String} {y : String} :
    y ∈ unionStr a b ↔ y ∈ a ∨ y ∈ b := by
  unfold unionStr
  induction b generalizing a with
  | nil => simp
  | cons x t ih =>
    rw [List.foldl_cons, ih]
    rw [mem_insertStr]
    simp [or_assoc]

/-! ## Merge-engine lemmas -/

theorem merge_cards_nil (ex : List (String × PokemonCard)) (b : Bool) :
    merge_cards ex [] b = ex := rfl

theorem merge_cards_cons (ex : List (String × PokemonCard)) (c : PokemonCard)
    (l : List PokemonCard) (b : Bool) :
    merge_cards ex (c :: l) b = merge_cards (merge_step b ex c) l b := rfl

theorem dfind_merge_step_of_ne {b : Bool} {ex : List (String × PokemonCard)} {c : PokemonCard}
    {k : String} (h : pyStrip c.id ≠ k) : dfind (merge_step b ex c) k = dfind ex k := by
  simp only [merge_step]
  by_cases h0 : pyStrip c.id = ""
  · rw [if_pos h0]
  · rw [if_neg h0]
    by_cases h1 : (b || (dfind ex (pyStrip c.id)).isNone) = true
    · rw [if_pos h1, dfind_dinsert]
      rw [if_neg (fun he => h he.symm)]
    · rw [if_neg h1]

theorem dfind_merge_cards_of_not_mem {l : List PokemonCard} {ex : List (String × PokemonCard)}
    {b : Bool} {k : String} (h : ∀ c ∈ l, pyStrip c.id ≠ k) :
    dfind (merge_cards ex l b) k = dfind ex k := by
  induction l generalizing ex with
  | nil => rfl
  | cons c t ih =>
    rw [merge_cards_cons, ih (fun c' hc' => h c' (List.mem_cons_of_mem c hc')),
      dfind_merge_step_of_ne (h c (List.mem_cons_self c t))]

theorem dfind_merge_cards_false {l : List PokemonCard} {ex : List (String × PokemonCard)}
    {k : String} {v : PokemonCard} (h : dfind ex k = some v) :
    dfind (merge_cards ex l false) k = some v := by
  induction l generalizing ex with
  | nil => exact h
  | cons c t ih =>
    rw [merge_cards_cons]
    apply ih
    simp only [merge_step]
    by_cases h0 : pyStrip c.id = ""
    · rw [if_pos h0]; exact h
    · rw [if_neg h0]
      by_cases h1 : (false || (dfind ex (pyStrip c.id)).isNone) = true
      · rw [if_pos h1, dfind_dinsert]
        by_cases hk : k = pyStrip c.id
        · exfalso
          rw [← hk] at h1
          rw [h] at h1
          simp at h1
        · rw [if_neg hk]; exact h
      · rw [if_neg h1]; exact h

theorem dfind_merge_cards_true {l : List PokemonCard} {ex : List (String × PokemonCard)}
    {k : String} (hk : k ≠ "") (hne : l.filter (fun c => pyStrip c.id = k) ≠ []) :
    dfind (merge_cards ex l true) k = (l.filter (fun c => pyStrip c.id = k)).getLast? := by
  induction l generalizing ex with
  | nil => simp at hne
  | cons c t ih =>
    rw [merge_cards_cons]
    by_cases hf : t.filter (fun c => pyStrip c.id = k) = []
    · have hc : pyStrip c.id = k := by
        by_contra hcc
        apply hne
        rw [List.filter_cons]
        simp [hcc, hf]
      have hnot : ∀ c' ∈ t, pyStrip c'.id ≠ k := by
        intro c' hc'
        have := List.filter_eq_nil_iff.mp hf c' hc'
        simpa using this
      rw [dfind_merge_cards_of_not_mem hnot]
      have hstep : dfind (merge_step true ex c) k = some c := by
        simp only [merge_step]
        rw [if_neg (by rw [hc]; exact hk), if_pos (by simp), dfind_dinsert, if_pos hc.symm]
      rw [hstep, List.filter_cons]
      simp [hc, hf]
    · rw [ih hf, List.filter_cons]
      by_cases hc : pyStrip c.id = k
      · simp only [hc, decide_True, if_true]
        rw [show (c :: List.filter (fun c => decide (pyStrip c.id = k)) t) =
          [c] ++ List.filter (fun c => decide (pyStrip c.id = k)) t from rfl, List.getLast?_append]
        have hsome : (List.filter (fun c => decide (pyStrip c.id = k)) t).getLast?.isSome = true :=
          List.getLast?_isSome.mpr hf
        obtain ⟨a, ha⟩ := Option.isSome_iff_exists.mp hsome
        rw [ha]
        rfl
      · simp [hc]

theorem dfind_merge_step_isSome {b : Bool} {ex : List (String × PokemonCard)} {c : PokemonCard}
    {k : String} :
    (dfind (merge_step b ex c) k).isSome = true ↔
      (dfind ex k).isSome = true ∨ (k ≠ "" ∧ pyStrip c.id = k) := by
  simp only [merge_step]
  by_cases h0 : pyStrip c.id = ""
  · rw [if_pos h0]
    constructor
    · exact Or.inl
    · rintro (h | ⟨hk, hc⟩)
      · exact h
      · exact absurd (hc ▸ h0) hk
  · rw [if_neg h0]
    by_cases h1 : (b || (dfind ex (pyStrip c.id)).isNone) = true
    · rw [if_pos h1, dfind_isSome_dinsert]
      constructor
      · intro h
        rcases Bool.or_eq_true_iff.mp h with h | h
        · exact Or.inl h
        · exact Or.inr ⟨(of_decide_eq_true h) ▸ h0, (of_decide_eq_true h).symm⟩
      · rintro (h | ⟨hk, hc⟩)
        · exact Bool.or_eq_true_iff.mpr (Or.inl h)
        · exact Bool.or_eq_true_iff.mpr (Or.inr (decide_eq_true hc.symm))
    · rw [if_neg h1]
      constructor
      · exact Or.inl
      · rintro (h | ⟨hk, hc⟩)
        · exact h
        · have h2 : (dfind ex (pyStrip c.id)).isNone = false := by
            cases hb : (dfind ex (pyStrip c.id)).isNone
            · rfl
            · exact absurd (by simp [hb]) h1
          rw [hc] at h2
          cases hd : dfind ex k
          · rw [hd] at h2; simp at h2
          · simp

theorem dfind_merge_cards_isSome {l : List PokemonCard} {ex : List (String × PokemonCard)}
    {b : Bool} {k : String} :
    (dfind (merge_cards ex l b) k).isSome = true ↔
      (dfind ex k).isSome = true ∨ (k ≠ "" ∧ ∃ c ∈ l, pyStrip c.id = k) := by
  induction l generalizing ex with
  | nil => simp [merge_cards_nil]
  | cons c t ih =>
    rw [merge_cards_cons, ih]
    rw [dfind_merge_step_isSome]
    simp only [List.mem_cons]
    constructor
    · rintro ((h | ⟨hk, hc⟩) | ⟨hk, c', hc', hc'k⟩)
      · exact Or.inl h
      · exact Or.inr ⟨hk, c, Or.inl rfl, hc⟩
      · exact Or.inr ⟨hk, c', Or.inr hc', hc'k⟩
    · rintro (h | ⟨hk, c', (rfl | hc'), hc'k⟩)
      · exact Or.inl (Or.inl h)
      · exact Or.inl (Or.inr ⟨hk, hc'k⟩)
      · exact Or.inr ⟨hk, c', hc', hc'k⟩

theorem merge_cards_skip (ex : List (String × PokemonCard)) (l₁ l₂ : List PokemonCard)
    (c : PokemonCard) (b : Bool) (h : pyStrip c.id = "") :
    merge_cards ex (l₁ ++ c :: l₂) b = merge_cards ex (l₁ ++ l₂) b := by
  unfold merge_cards
  rw [List.foldl_append, List.foldl_append, List.foldl_cons]
  have hstep : merge_step b (List.foldl (merge_step b) ex l₁) c =
      List.foldl (merge_step b) ex l₁ := by
    simp [merge_step, h]
  rw [hstep]

theorem mem_foldl_scan_step {k : String} :
    ∀ (l : List PokemonCard) (acc : List String),
      k ∈ l.foldl scan_step acc ↔
        k ∈ acc ∨ ∃ c ∈ l, pyStrip c.type = "" ∧ c.id ≠ "" ∧ k = normIdMain c.id := by
  intro l
  induction l with
  | nil => simp
  | cons c t ih =>
    intro acc
    rw [List.foldl_cons, ih]
    simp only [List.mem_cons]
    by_cases hc : pyStrip c.type = "" ∧ c.id ≠ ""
    · rw [scan_step, if_pos hc]
      rw [show (k ∈ insertStr acc (normIdMain c.id)) ↔
        (k ∈ acc ∨ k = normIdMain c.id) from mem_insertStr]
      constructor
      · rintro ((h | h) | ⟨c', hc', h⟩)
        · exact Or.inl h
        · exact Or.inr ⟨c, Or.inl rfl, hc.1, hc.2, h⟩
        · exact Or.inr ⟨c', Or.inr hc', h⟩
      · rintro (h | ⟨c', (rfl | hc'), h1, h2, h3⟩)
        · exact Or.inl (Or.inl h)
        · exact Or.inl (Or.inr h3)
        · exact Or.inr ⟨c', hc', h1, h2, h3⟩
    · rw [scan_step, if_neg hc]
      constructor
      · rintro (h | ⟨c', hc', h⟩)
        · exact Or.inl h
        · exact Or.inr ⟨c', Or.inr hc', h⟩
      · rintro (h | ⟨c', (rfl | hc'), h1, h2, h3⟩)
        · exact Or.inl h
        · exact absurd ⟨h1, h2⟩ hc
        · exact Or.inr ⟨c', hc', h1, h2, h3⟩

theorem mem_scan_missing {batch : List PokemonCard} {k : String} :
    k ∈ scan_missing batch ↔
      ∃ c ∈ batch, pyStrip c.type = "" ∧ c.id ≠ "" ∧ k = normIdMain c.id := by
  unfold scan_missing
  rw [mem_foldl_scan_step]
  simp

theorem mem_of_getLast?_eq_some {α : Type} {l : List α} {a : α} (h : l.getLast? = some a) :
    a ∈ l := by
  rw [List.getLast?_eq_head?_reverse] at h
  cases hr : l.reverse with
  | nil => rw [hr] at h; simp at h
  | cons x xs =>
    rw [hr] at h
    simp only [List.head?_cons, Option.some.injEq] at h
    subst h
    rw [← List.mem_reverse, hr]
    exact List.mem_cons_self x xs

/-! ## Claim C4 -/

/-- C4: `merge_cards` override semantics.  With `override = true` every
incoming record with a non-blank (stripped) id ends up represented at its key
by an incoming record (the existing entry is replaced); with `override = false`
every existing entry survives unchanged; and for any key carried by no incoming
record the merge result agrees with the existing catalog (the merge never
deletes entries). -/
theorem merge_cards_override_policy (existing : List (String × PokemonCard))
    (incoming : List PokemonCard) :
    (∀ c ∈ incoming, pyStrip c.id ≠ "" →
      ∃ c' ∈ incoming, pyStrip c'.id = pyStrip c.id ∧
        dfind (merge_cards existing incoming true) (pyStrip c.id) = some c') ∧
    (∀ k v, dfind existing k = some v → dfind (merge_cards existing incoming false) k = some v) ∧
    (∀ (override : Bool) (k : String), (∀ c ∈ incoming, pyStrip c.id ≠ k) →
      dfind (merge_cards existing incoming override) k = dfind existing k) := by
  refine ⟨?_, ?_, ?_⟩
  · intro c hc hne
    have hfil : incoming.filter (fun c' => pyStrip c'.id = pyStrip c.id) ≠ [] := by
      intro hnil
      have := List.filter_eq_nil_iff.mp hnil c hc
      simp at this
    rw [dfind_merge_cards_true hne hfil]
    obtain ⟨a, ha⟩ := Option.isSome_iff_exists.mp (List.getLast?_isSome.mpr hfil)
    have hmem := mem_of_getLast?_eq_some ha
    rcases List.mem_filter.mp hmem with ⟨hmem', hpred⟩
    exact ⟨a, hmem', of_decide_eq_true hpred, ha⟩
  · intro k v h
    exact dfind_merge_cards_false h
  · intro b k h
    exact dfind_merge_cards_of_not_mem h

/-- Witness for C4, at a one-entry catalog and a one-card batch sharing the
key `"A1-001"`. -/
theorem merge_cards_override_policy_witness :
    ∃ c' ∈ [cardNew], pyStrip c'.id = pyStrip cardNew.id ∧
      dfind (merge_cards [("A1-001", cardOld)] [cardNew] true) (pyStrip cardNew.id) = some c' :=
  (merge_cards_override_policy [("A1-001", cardOld)] [cardNew]).1 cardNew
    (List.mem_cons_self _ _) (by decide)

/-! ## Claim C10 -/

/-- C10: `merge_cards` silently drops incoming records whose id strips to the
empty string, and the keys present in the result are exactly the existing keys
together with the non-empty stripped incoming ids — so the result is never
smaller than the existing catalog. -/
theorem merge_cards_blank_id_policy (existing : List (String × PokemonCard)) (override : Bool) :
    (∀ (l₁ l₂ : List PokemonCard) (c : PokemonCard), pyStrip c.id = "" →
      merge_cards existing (l₁ ++ c :: l₂) override = merge_cards existing (l₁ ++ l₂) override) ∧
    (∀ (incoming : List PokemonCard) (k : String),
      (dfind (merge_cards existing incoming override) k).isSome = true ↔
        (dfind existing k).isSome = true ∨ (k ≠ "" ∧ ∃ c ∈ incoming, pyStrip c.id = k)) :=
  ⟨fun l₁ l₂ c h => merge_cards_skip existing l₁ l₂ c override h,
    fun _ _ => dfind_merge_cards_isSome⟩

/-- Witness for C10: a whitespace-only id is dropped from a concrete merge. -/
theorem merge_cards_blank_id_policy_witness :
    merge_cards [("A1-001", cardOld)] ([] ++ cardBlank :: [cardOther]) true =
      merge_cards [("A1-001", cardOld)] ([] ++ [cardOther]) true :=
  (merge_cards_blank_id_policy [("A1-001", cardOld)] true).1 [] [cardOther] cardBlank (by decide)

theorem eq_of_nodup_map {α β : Type} {f : α → β} {l : List α} (h : (l.map f).Nodup)
    {a b : α} (ha : a ∈ l) (hb : b ∈ l) (hf : f a = f b) : a = b := by
  induction l with
  | nil => simp at ha
  | cons x t ih =>
    rw [List.map_cons, List.nodup_cons] at h
    rcases List.mem_cons.mp ha with rfl | ha' <;> rcases List.mem_cons.mp hb with rfl | hb'
    · rfl
    · exact absurd (hf ▸ List.mem_map_of_mem f hb') h.1
    · exact absurd (hf.symm ▸ List.mem_map_of_mem f ha') h.1
    · exact ih h.2 ha' hb'

/-! ## Claim C5 -/

/-- C5 (amended): after a reconciliation pass over a batch whose cards carry
pairwise-distinct ids that are fixed points of stripping and of the
missing-scan normalization, no id newly detected by the missing-type scan maps
in the merged catalog to a card with non-blank type.  (The full claim, over an
arbitrary previously persisted MissingSet, is refuted by
`scan_merge_missing_counterexample`: the pass never removes stale ids.) -/
theorem scan_merge_no_typed_missing (catalog : List (String × PokemonCard))
    (batch : List PokemonCard)
    (hnodup : (batch.map (fun c => c.id)).Nodup)
    (hcanon : ∀ c ∈ batch, pyStrip c.id = c.id ∧ normIdMain c.id = c.id) :
    ∀ k ∈ scan_missing batch, ∀ card,
      dfind (merge_cards catalog batch true) k = some card → pyStrip card.type = "" := by
  intro k hk card hcard
  rcases mem_scan_missing.mp hk with ⟨c, hc, htype, hid, hknorm⟩
  obtain ⟨hstrip, hnorm⟩ := hcanon c hc
  have hkid : k = c.id := by rw [hknorm, hnorm]
  subst hkid
  have hfil : batch.filter (fun c' => pyStrip c'.id = c.id) ≠ [] := by
    intro hnil
    have h0 := List.filter_eq_nil_iff.mp hnil c hc
    rw [hstrip] at h0
    simp at h0
  rw [dfind_merge_cards_true hid hfil] at hcard
  have hmem := mem_of_getLast?_eq_some hcard
  rcases List.mem_filter.mp hmem with ⟨hmem', hpred⟩
  have hcardid : card.id = c.id := by
    have h1 := of_decide_eq_true hpred
    rw [(hcanon card hmem').1] at h1
    exact h1
  have hcc : card = c := eq_of_nodup_map hnodup hmem' hc hcardid
  rw [hcc]
  exact htype

/-- Counterexample for C5 as stated: with previously persisted MissingSet
`["A1-001"]`, an empty catalog, and a batch holding the fully typed card
`A1-001`, the reconciliation pass leaves `"A1-001"` in the MissingSet while the
merged catalog maps it to a card of type `"pokemon"`. -/
theorem scan_merge_missing_counterexample :
    "A1-001" ∈ reconcile_missing ["A1-001"] [cardOld] ∧
      (dfind (merge_cards [] [cardOld] true) "A1-001").map (fun c => c.type) =
        some "pokemon" := by
  constructor
  · decide
  · decide

/-- Witness for C5 at a batch holding the single untyped card `A2-005`. -/
theorem scan_merge_no_typed_missing_witness : pyStrip cardOther.type = "" :=
  scan_merge_no_typed_missing [] [cardOther] (by decide) (by decide) "A2-005" (by decide)
    cardOther (by decide)

/-! ## Normalization lemmas and claims C1, C2, C3 -/

theorem pyStrip_mk (l : List Char) : pyStrip ⟨l⟩ = ⟨pyStripList l⟩ := rfl

theorem normalize_set_eq_pos {x : String}
    (hp : isPrefOf "PROMO-".data (pyStrip x).data = true) :
    normalize_set x = ⟨(replPromoList (pyStrip x).data).map upChar⟩ := by
  simp only [normalize_set]
  rw [if_pos hp]
  rfl

theorem normalize_set_eq_neg {x : String}
    (hp : isPrefOf "PROMO-".data (pyStrip x).data = false) :
    normalize_set x = ⟨(pyStrip x).data.map upChar⟩ := by
  simp only [normalize_set]
  rw [if_neg (by simp [hp])]
  rfl

theorem from_json_id (obj : RawCard) :
    (from_json obj).id = normalize_set obj.set ++ "-" ++ ⟨num_pad_of obj.number⟩ := rfl

theorem from_json_set (obj : RawCard) : (from_json obj).set = normalize_set obj.set := rfl

theorem from_json_number (obj : RawCard) : (from_json obj).number = number_value_of obj.number :=
  rfl

theorem from_json_type (obj : RawCard) : (from_json obj).type = pyStrip obj.type := rfl

/-- C1 (amended): the two records written with the exact-case promo prefix,
`"PROMO-A"`/`"7"` and `"P-A"`/`"007"`, both canonicalize to `"P-A-007"`; and in
general any two raw records whose set codes agree after set normalization and
whose numbers agree after digit extraction and zero padding receive the same
CanonicalID.  (The claim's own instance with lowercase `"promo-a"` fails, see
`canonical_id_counterexample`: the prefix test runs before uppercasing.) -/
theorem canonical_id_deterministic :
    ((from_json (mkRaw "PROMO-A" "7" "")).id = "P-A-007" ∧
      (from_json (mkRaw "P-A" "007" "")).id = "P-A-007") ∧
    ∀ a b : RawCard, normalize_set a.set = normalize_set b.set →
      num_pad_of a.number = num_pad_of b.number → (from_json a).id = (from_json b).id := by
  refine ⟨by decide, ?_⟩
  intro a b hset hpad
  rw [from_json_id, from_json_id, hset, hpad]

/-- Counterexample for C1 as stated: the raw set `"promo-a"` is uppercased but
not promo-normalized, so its record receives the id `"PROMO-A-007"`, not
`"P-A-007"`. -/
theorem canonical_id_counterexample :
    (from_json (mkRaw "promo-a" "7" "")).id = "PROMO-A-007" ∧
      (from_json (mkRaw "P-A" "007" "")).id = "P-A-007" ∧
      (from_json (mkRaw "promo-a" "7" "")).id ≠ (from_json (mkRaw "P-A" "007" "")).id := by
  decide

/-- Witness for C1 at the records `"PROMO-A"`/`"7"` and `" P-A "`/`"007"`. -/
theorem canonical_id_deterministic_witness :
    (from_json (mkRaw "PROMO-A" "7" "")).id = (from_json (mkRaw " P-A " "007" "")).id :=
  canonical_id_deterministic.2 (mkRaw "PROMO-A" "7" "") (mkRaw " P-A " "007" "")
    (by decide) (by decide)

/-- C2 (amended): the Canonicalizer's set normalization is idempotent on every
string whose stripped form starts with `"PROMO-"` whenever its uppercased
stripped form does — i.e. on all inputs except those (such as `"promo-a"`)
whose promo prefix only appears after uppercasing.  (The unrestricted claim is
refuted by `normalize_set_idem_counterexample`.) -/
theorem normalize_set_idem (x : String)
    (h : isPrefOf "PROMO-".data (pyUpper (pyStrip x)).data = true →
      isPrefOf "PROMO-".data (pyStrip x).data = true) :
    normalize_set (normalize_set x) = normalize_set x := by
  have hclean : cleanEnds (pyStrip x).data := cleanEnds_pyStripList x.data
  cases hp : isPrefOf "PROMO-".data (pyStrip x).data with
  | true =>
    obtain ⟨t, ht⟩ := isPrefOf_iff.mp hp
    rw [normalize_set_eq_pos hp]
    have hcleann1 : cleanEnds ((replPromoList (pyStrip x).data).map upChar) :=
      cleanEnds_mapUp (cleanEnds_replPromo hclean)
    have hstrip1 : pyStrip ⟨(replPromoList (pyStrip x).data).map upChar⟩ =
        (⟨(replPromoList (pyStrip x).data).map upChar⟩ : String) := by
      rw [pyStrip_mk, pyStripList_eq_self hcleann1]
    have hshape : ∃ u, (replPromoList (pyStrip x).data).map upChar = 'P' :: '-' :: u := by
      rw [ht, promo_data, promoList_append, replPromo_promo]
      refine ⟨(replPromoList t).map upChar, ?_⟩
      rw [List.map_cons, List.map_cons, show upChar 'P' = 'P' from by decide,
        show upChar '-' = '-' from by decide]
    obtain ⟨u, hu⟩ := hshape
    have hp2 : isPrefOf "PROMO-".data
        (pyStrip ⟨(replPromoList (pyStrip x).data).map upChar⟩).data = false := by
      rw [hstrip1]
      show isPrefOf "PROMO-".data ((replPromoList (pyStrip x).data).map upChar) = false
      rw [hu, promo_data]
      simp [isPrefOf]
    rw [normalize_set_eq_neg hp2, hstrip1]
    exact congrArg String.mk (mapUp_mapUp _)
  | false =>
    rw [normalize_set_eq_neg hp]
    have hcleann1 : cleanEnds ((pyStrip x).data.map upChar) := cleanEnds_mapUp hclean
    have hstrip1 : pyStrip ⟨(pyStrip x).data.map upChar⟩ =
        (⟨(pyStrip x).data.map upChar⟩ : String) := by
      rw [pyStrip_mk, pyStripList_eq_self hcleann1]
    have hp2 : isPrefOf "PROMO-".data (pyStrip ⟨(pyStrip x).data.map upChar⟩).data = false := by
      rw [hstrip1]
      show isPrefOf "PROMO-".data ((pyStrip x).data.map upChar) = false
      cases hb : isPrefOf "PROMO-".data ((pyStrip x).data.map upChar) with
      | false => rfl
      | true => exact absurd (h hb) (by rw [hp]; exact Bool.false_ne_true)
    rw [normalize_set_eq_neg hp2, hstrip1]
    exact congrArg String.mk (mapUp_mapUp _)

/-- Counterexample for C2 as stated: `"promo-a"` normalizes to `"PROMO-A"`,
which normalizes again to the different string `"P-A"`. -/
theorem normalize_set_idem_counterexample :
    normalize_set "promo-a" = "PROMO-A" ∧ normalize_set (normalize_set "promo-a") = "P-A" ∧
      normalize_set (normalize_set "promo-a") ≠ normalize_set "promo-a" := by
  decide

/-- Witness for C2 at the string `" PROMO-a "`. -/
theorem normalize_set_idem_witness :
    normalize_set (normalize_set " PROMO-a ") = normalize_set " PROMO-a " :=
  normalize_set_idem " PROMO-a " (by decide)

theorem normalize_expansion_eq_neg {x : String}
    (h : isPrefOf "PROMO-".data (pyUpper (pyStrip x)).data = false) :
    normalize_expansion x = pyUpper (pyStrip x) := by
  simp only [normalize_expansion]
  rw [if_neg (by simp [h])]

theorem normalize_expansion_eq_pos {x : String}
    (h : isPrefOf "PROMO-".data (pyUpper (pyStrip x)).data = true) :
    normalize_expansion x =
      ⟨'P' :: '-' :: (((pyUpper (pyStrip x)).data.dropWhile (fun c => c ≠ '-')).drop 1)⟩ := by
  simp only [normalize_expansion]
  rw [if_pos h]

theorem mapUp_promo (t : List Char) :
    ('P' :: 'R' :: 'O' :: 'M' :: 'O' :: '-' :: t).map upChar =
      'P' :: 'R' :: 'O' :: 'M' :: 'O' :: '-' :: t.map upChar := by
  simp only [List.map_cons]
  rw [show upChar 'P' = 'P' from by decide, show upChar 'R' = 'R' from by decide,
    show upChar 'O' = 'O' from by decide, show upChar 'M' = 'M' from by decide,
    show upChar '-' = '-' from by decide]

theorem dropWhile_promo_hyphen (X : List Char) :
    (('P' :: 'R' :: 'O' :: 'M' :: 'O' :: '-' :: X).dropWhile (fun c => c ≠ '-')).drop 1 = X := by
  rfl

/-- C3 (amended): the Canonicalizer's set normalization and the Sync Builder's
expansion normalization agree on every string that either carries the
`"PROMO-"` prefix in exact case with no further `"PROMO-"` occurrence in the
remainder, or does not start with `"PROMO-"` even after uppercasing.  (They
disagree on case-variant prefixes such as `"promo-a"`, see
`normalize_agreement_counterexample`.) -/
theorem normalize_agreement (x : String)
    (h : (isPrefOf "PROMO-".data (pyStrip x).data = true ∧
            containsSeq ['P', 'R', 'O', 'M', 'O', '-'] ((pyStrip x).data.drop 6) = false) ∨
          isPrefOf "PROMO-".data (pyUpper (pyStrip x)).data = false) :
    normalize_set x = normalize_expansion x := by
  rcases h with ⟨hp, hnc⟩ | hup
  · obtain ⟨t, ht⟩ := isPrefOf_iff.mp hp
    have ht' : (pyStrip x).data = 'P' :: 'R' :: 'O' :: 'M' :: 'O' :: '-' :: t := by
      rw [ht, promo_data, promoList_append]
    have hdrop : (pyStrip x).data.drop 6 = t := by rw [ht']; rfl
    rw [hdrop] at hnc
    rw [normalize_set_eq_pos hp]
    have hup : isPrefOf "PROMO-".data (pyUpper (pyStrip x)).data = true := by
      apply isPrefOf_iff.mpr
      refine ⟨t.map upChar, ?_⟩
      show (pyStrip x).data.map upChar = _
      rw [ht', mapUp_promo, promo_data, promoList_append]
    rw [normalize_expansion_eq_pos hup]
    apply congrArg String.mk
    rw [ht', replPromo_promo, replPromo_of_not_contains hnc]
    rw [List.map_cons, List.map_cons, show upChar 'P' = 'P' from by decide,
      show upChar '-' = '-' from by decide]
    show _ = 'P' :: '-' :: (((pyStrip x).data.map upChar).dropWhile (fun c => c ≠ '-')).drop 1
    rw [ht', mapUp_promo, dropWhile_promo_hyphen]
  · have hp : isPrefOf "PROMO-".data (pyStrip x).data = false := by
      cases hb : isPrefOf "PROMO-".data (pyStrip x).data with
      | false => rfl
      | true =>
        exfalso
        obtain ⟨t, ht⟩ := isPrefOf_iff.mp hb
        have htrue : isPrefOf "PROMO-".data (pyUpper (pyStrip x)).data = true := by
          apply isPrefOf_iff.mpr
          refine ⟨t.map upChar, ?_⟩
          show (pyStrip x).data.map upChar = _
          rw [ht, promo_data, promoList_append, mapUp_promo]
          rw [promoList_append]
        rw [htrue] at hup
        simp at hup
    rw [normalize_set_eq_neg hp, normalize_expansion_eq_neg hup]
    rfl

/-- Counterexample for C3 as stated: on `"promo-a"` the Canonicalizer produces
`"PROMO-A"` while the Sync Builder produces `"P-A"`. -/
theorem normalize_agreement_counterexample :
    normalize_set "promo-a" = "PROMO-A" ∧ normalize_expansion "promo-a" = "P-A" ∧
      normalize_set "promo-a" ≠ normalize_expansion "promo-a" := by
  decide

/-- Witness for C3 at the exact-case string `"PROMO-b"` and the prefix-free
string `"a1"`. -/
theorem normalize_agreement_witness :
    normalize_set "PROMO-b" = normalize_expansion "PROMO-b" ∧
      normalize_set "a1" = normalize_expansion "a1" :=
  ⟨normalize_agreement "PROMO-b" (Or.inl (by decide)),
    normalize_agreement "a1" (Or.inr (by decide))⟩

/-! ## Claim C6 -/

/-- C6: the duplicate-resolution rule of `build_sync_map`.  When a key is seen
again, the stored mapping changes exactly when the stored value's expansion
prefix is `"A4B"` and the new candidate's normalized expansion is not (then the
candidate replaces it); in every other combination the first-seen mapping is
kept.  In particular `"A4B-010"` then `"A1-010"` ends as `"A1-010"`, and in the
reverse order the mapping also ends as `"A1-010"`. -/
theorem sync_a4b_rule :
    (∀ (sync : List (String × String)) (item : RefItem) (v : String),
      item.cardDefKey ≠ "" → item.expansionId ≠ "" →
      dfind sync item.cardDefKey = some v →
      dfind (sync_step sync item) item.cardDefKey =
        (if pyUpper (get_expansion_from_value v) = "A4B" ∧
            normalize_expansion item.expansionId ≠ "A4B" then
          some (normalize_expansion item.expansionId ++ "-" ++ ⟨pad3 item.number⟩)
        else some v)) ∧
    dfind (build_sync_map [⟨"k", "A4B", 10⟩, ⟨"k", "A1", 10⟩]) "k" = some "A1-010" ∧
    dfind (build_sync_map [⟨"k", "A1", 10⟩, ⟨"k", "A4B", 10⟩]) "k" = some "A1-010" := by
  refine ⟨?_, by decide, by decide⟩
  intro sync item v hk he hfound
  simp only [sync_step]
  rw [if_neg (by simp [hk, he])]
  rw [hfound]
  show dfind
      (if pyUpper (get_expansion_from_value v) = "A4B" ∧
          normalize_expansion item.expansionId ≠ "A4B" then
        dinsert sync item.cardDefKey
          (normalize_expansion item.expansionId ++ "-" ++ ⟨pad3 item.number⟩)
      else sync) item.cardDefKey = _
  by_cases hc : pyUpper (get_expansion_from_value v) = "A4B" ∧
      normalize_expansion item.expansionId ≠ "A4B"
  · rw [if_pos hc, if_pos hc, dfind_dinsert, if_pos rfl]
  · rw [if_neg hc, if_neg hc]
    exact hfound

/-- Witness for C6: one step on a live mapping `"k" ↦ "A4B-010"` with the
candidate expansion `"A1"`. -/
theorem sync_a4b_rule_witness :
    dfind (sync_step [("k", "A4B-010")] ⟨"k", "A1", 10⟩) "k" =
      (if pyUpper (get_expansion_from_value "A4B-010") = "A4B" ∧
          normalize_expansion "A1" ≠ "A4B" then
        some (normalize_expansion "A1" ++ "-" ++ ⟨pad3 10⟩)
      else some "A4B-010") :=
  sync_a4b_rule.1 [("k", "A4B-010")] ⟨"k", "A1", 10⟩ "A4B-010" (by decide) (by decide)
    (by decide)

/-! ## Claim C7 -/

theorem listModify_length {α : Type} (l : List α) (i : Nat) (f : α → α) :
    (listModify l i f).length = l.length := by
  induction l generalizing i with
  | nil => rfl
  | cons x xs ih =>
    cases i with
    | zero => simp [listModify]
    | succ n => simp [listModify, ih]

theorem update_step_fst_length (idx : List (String × Nat)) (st : List PokemonCard × List String)
    (u : String × CardUpdate) : (update_step idx st u).1.length = st.1.length := by
  simp only [update_step]
  cases h1 : dfind idx u.1 with
  | some i => simp [listModify_length]
  | none =>
    cases h2 : dfind idx (normalize_id_for_cards u.1) with
    | some i => simp [listModify_length]
    | none => rfl

theorem update_step_snd_mem (idx : List (String × Nat)) (st : List PokemonCard × List String)
    (u : String × CardUpdate) (k : String) :
    k ∈ (update_step idx st u).2 ↔ k ∈ st.2 ∨ (k = u.1 ∧
      ((dfind idx u.1).isSome = true ∨
        (dfind idx (normalize_id_for_cards u.1)).isSome = true)) := by
  simp only [update_step]
  cases h1 : dfind idx u.1 with
  | some i =>
    show k ∈ insertStr st.2 u.1 ↔ _
    rw [mem_insertStr]
    constructor
    · rintro (h | h)
      · exact Or.inl h
      · exact Or.inr ⟨h, Or.inl rfl⟩
    · rintro (h | ⟨h, _⟩)
      · exact Or.inl h
      · exact Or.inr h
  | none =>
    cases h2 : dfind idx (normalize_id_for_cards u.1) with
    | some i =>
      show k ∈ insertStr st.2 u.1 ↔ _
      rw [mem_insertStr]
      constructor
      · rintro (h | h)
        · exact Or.inl h
        · exact Or.inr ⟨h, Or.inr rfl⟩
      · rintro (h | ⟨h, _⟩)
        · exact Or.inl h
        · exact Or.inr h
    | none =>
      show k ∈ st.2 ↔ _
      constructor
      · exact Or.inl
      · rintro (h | ⟨_, hm | hm⟩)
        · exact h
        · simp at hm
        · simp at hm

theorem apply_updates_fold (idx : List (String × Nat)) (ups : List (String × CardUpdate)) :
    ∀ st : List PokemonCard × List String,
      ((ups.foldl (update_step idx) st).1.length = st.1.length) ∧
      (∀ k, k ∈ (ups.foldl (update_step idx) st).2 ↔
        k ∈ st.2 ∨ ∃ u ∈ ups, u.1 = k ∧
          ((dfind idx u.1).isSome = true ∨
            (dfind idx (normalize_id_for_cards u.1)).isSome = true)) := by
  induction ups with
  | nil => intro st; simp
  | cons u t ih =>
    intro st
    rw [List.foldl_cons]
    refine ⟨?_, ?_⟩
    · rw [(ih (update_step idx st u)).1, update_step_fst_length]
    · intro k
      rw [(ih (update_step idx st u)).2 k, update_step_snd_mem]
      simp only [List.mem_cons]
      constructor
      · rintro ((h | ⟨rfl, hm⟩) | ⟨u', hu', h1, h2⟩)
        · exact Or.inl h
        · exact Or.inr ⟨u, Or.inl rfl, rfl, hm⟩
        · exact Or.inr ⟨u', Or.inr hu', h1, h2⟩
      · rintro (h | ⟨u', (rfl | hu'), h1, h2⟩)
        · exact Or.inl (Or.inl h)
        · exact Or.inl (Or.inr ⟨h1.symm, h2⟩)
        · exact Or.inr ⟨u', hu', h1, h2⟩

/-- C7: updates are applied by exact id lookup with a promo-normalized retry;
an update matching neither way is skipped without disturbing the batch (the
catalog keeps its length, and only matched keys are recorded); the recorded
updated-key set holds exactly the supplied keys that matched; and the persisted
MissingSet keeps exactly its members that are not among the updated keys. -/
theorem enrichment_resolver_policy (cards : List PokemonCard)
    (updates : List (String × CardUpdate)) :
    ((apply_updates cards updates).1.length = cards.length) ∧
    (∀ k, k ∈ (apply_updates cards updates).2 ↔
      ∃ u ∈ updates, u.1 = k ∧
        ((dfind (id_to_index cards) k).isSome = true ∨
          (dfind (id_to_index cards) (normalize_id_for_cards k)).isSome = true)) ∧
    (∀ (missing : List String) (m : String), m ∈ missing →
      (m ∈ remaining_missing missing (apply_updates cards updates).2 ↔
        m ∉ (apply_updates cards updates).2)) := by
  refine ⟨?_, ?_, ?_⟩
  · exact (apply_updates_fold (id_to_index cards) updates (cards, [])).1
  · intro k
    have h := (apply_updates_fold (id_to_index cards) updates (cards, [])).2 k
    rw [show (apply_updates cards updates) =
      updates.foldl (update_step (id_to_index cards)) (cards, []) from rfl, h]
    simp only [List.not_mem_nil, false_or]
    constructor
    · rintro ⟨u, hu, rfl, hm⟩
      exact ⟨u, hu, rfl, hm⟩
    · rintro ⟨u, hu, rfl, hm⟩
      exact ⟨u, hu, rfl, hm⟩
  · intro missing m hm
    unfold remaining_missing
    rw [List.mem_filter]
    simp [hm]

/-- Witness for C7: a one-card catalog, one unmatchable update, and the
MissingSet `["A1-001"]`. -/
theorem enrichment_resolver_policy_witness :
    "A1-001" ∈ remaining_missing ["A1-001"]
        (apply_updates [cardOld] [("PROMO-X", ⟨some "item", none⟩)]).2 ↔
      "A1-001" ∉ (apply_updates [cardOld] [("PROMO-X", ⟨some "item", none⟩)]).2 :=
  (enrichment_resolver_policy [cardOld] [("PROMO-X", ⟨some "item", none⟩)]).2.2
    ["A1-001"] "A1-001" (by decide)

/-! ## Claim C8 -/

theorem load_step_canonical {result : List (String × PokemonCard)} {c : PokemonCard}
    (hc : canonicalCard c) : load_step result c = dinsert result c.id c := by
  obtain ⟨hstrip, hne, hnorm, hset⟩ := hc
  simp only [load_step]
  rw [hstrip, if_neg hne, hnorm]
  rw [if_neg (by simp)]
  rcases hset with hempty | hfix
  · rw [if_neg (by simp [hempty])]
  · by_cases hs : c.set = ""
    · rw [if_neg (by simp [hs])]
    · rw [if_pos hs, hfix]

theorem foldl_load_step_eq {l : List PokemonCard} (h : ∀ c ∈ l, canonicalCard c) :
    ∀ acc, l.foldl load_step acc = l.foldl (fun r c => dinsert r c.id c) acc := by
  induction l with
  | nil => intro acc; rfl
  | cons c t ih =>
    intro acc
    rw [List.foldl_cons, List.foldl_cons, load_step_canonical (h c (List.mem_cons_self c t))]
    exact ih (fun c' hc' => h c' (List.mem_cons_of_mem c hc')) _

theorem dfind_foldl_insertById (l : List PokemonCard) :
    ∀ (acc : List (String × PokemonCard)) (k : String),
      dfind (l.foldl (fun r c => dinsert r c.id c) acc) k =
        match l.reverse.find? (fun c => decide (c.id = k)) with
        | some c => some c
        | none => dfind acc k := by
  induction l with
  | nil => intro acc k; rfl
  | cons c t ih =>
    intro acc k
    rw [List.foldl_cons, ih, List.reverse_cons, List.find?_append]
    cases hf : t.reverse.find? (fun c => decide (c.id = k)) with
    | some d => rfl
    | none =>
      rw [dfind_dinsert]
      by_cases hk : k = c.id
      · subst hk
        have hfc : List.find? (fun c' => decide (c'.id = c.id)) [c] = some c := by
          rw [List.find?_cons, decide_eq_true rfl]
        rw [hfc, if_pos rfl]
        rfl
      · have hfc : List.find? (fun c' => decide (c'.id = k)) [c] = none := by
          rw [List.find?_cons, decide_eq_false (fun h => hk h.symm)]
          rfl
        rw [hfc, if_neg hk]
        rfl

theorem reverse_find?_eq_find? {α : Type} {p : α → Bool} {l : List α}
    (hu : ∀ a ∈ l, ∀ b ∈ l, p a = true → p b = true → a = b) :
    l.reverse.find? p = l.find? p := by
  cases hf : l.find? p with
  | none =>
    apply List.find?_eq_none.mpr
    intro x hx
    exact List.find?_eq_none.mp hf x (List.mem_reverse.mp hx)
  | some a =>
    have ha := List.find?_some hf
    have ham := List.mem_of_find?_eq_some hf
    cases hg : l.reverse.find? p with
    | none =>
      exact absurd ha (by simpa using List.find?_eq_none.mp hg a (List.mem_reverse.mpr ham))
    | some b =>
      have hb := List.find?_some hg
      have hbm := List.mem_reverse.mp (List.mem_of_find?_eq_some hg)
      rw [hu b hbm a ham hb ha]

theorem find?_map_values {m : List (String × PokemonCard)} {k : String}
    (hkeys : ∀ p ∈ m, p.1 = p.2.id) :
    (m.map (fun p => p.2)).find? (fun c => decide (c.id = k)) =
      (m.find? (fun p => decide (p.1 = k))).map (fun p => p.2) := by
  induction m with
  | nil => rfl
  | cons p t ih =>
    rw [List.map_cons, List.find?_cons, List.find?_cons]
    have hk := hkeys p (List.mem_cons_self p t)
    by_cases hp : p.2.id = k
    · rw [decide_eq_true hp, decide_eq_true (hk.symm ▸ hp : p.1 = k)]
      rfl
    · rw [decide_eq_false hp, decide_eq_false (fun h => hp (hk ▸ h))]
      exact ih (fun q hq => hkeys q (List.mem_cons_of_mem p hq))

/-- C8 (amended): persisting a catalog (the sequence of its cards, in order)
and re-loading it through the legacy-upgrade loader reproduces exactly the
original catalog mapping, provided the catalog keys equal the card ids, the
keys are pairwise distinct, and every entry is canonical in the strong sense of
`canonicalCard` — in particular the id may contain `"PROMO-"` nowhere at all,
not merely not as a prefix.  (With only the claim's "uppercase, no `PROMO-`
prefix" condition the round trip fails, see `load_roundtrip_counterexample`.) -/
theorem load_roundtrip (m : List (String × PokemonCard))
    (hkeys : ∀ p ∈ m, p.1 = p.2.id)
    (hnodup : (m.map (fun p => p.1)).Nodup)
    (hcanon : ∀ p ∈ m, canonicalCard p.2) :
    ∀ k, dfind (load_existing_cards (m.map (fun p => p.2))) k = dfind m k := by
  intro k
  have hc : ∀ c ∈ m.map (fun p => p.2), canonicalCard c := by
    intro c hcm
    rcases List.mem_map.mp hcm with ⟨p, hp, rfl⟩
    exact hcanon p hp
  rw [show load_existing_cards (m.map (fun p => p.2)) =
      (m.map (fun p => p.2)).foldl (fun r c => dinsert r c.id c) [] from
    foldl_load_step_eq hc []]
  rw [dfind_foldl_insertById]
  have hu : ∀ a ∈ m.map (fun p => p.2), ∀ b ∈ m.map (fun p => p.2),
      decide (a.id = k) = true → decide (b.id = k) = true → a = b := by
    intro a ha b hb hda hdb
    rcases List.mem_map.mp ha with ⟨p, hp, rfl⟩
    rcases List.mem_map.mp hb with ⟨q, hq, rfl⟩
    have hpq : p = q := by
      apply eq_of_nodup_map hnodup hp hq
      rw [hkeys p hp, hkeys q hq, of_decide_eq_true hda, of_decide_eq_true hdb]
    rw [hpq]
  rw [reverse_find?_eq_find? hu, find?_map_values hkeys]
  unfold dfind
  cases m.find? (fun p => decide (p.1 = k)) with
  | none => rfl
  | some p => rfl

/-- Counterexample for C8 as stated: the entry id `"APROMO-001"` is uppercase
and has no `"PROMO-"` prefix, yet re-loading rewrites it (the loader replaces
every `"PROMO-"` occurrence), so the key disappears and the id field changes. -/
theorem load_roundtrip_counterexample :
    dfind (load_existing_cards ([("APROMO-001", cardLegacy)].map (fun p => p.2)))
        "APROMO-001" = none ∧
      dfind [("APROMO-001", cardLegacy)] "APROMO-001" = some cardLegacy ∧
      (load_existing_cards ([("APROMO-001", cardLegacy)].map (fun p => p.2))).map
        (fun p => p.2.id) = ["AP-001"] := by
  decide

/-- Witness for C8 at the one-entry catalog `{"A1-001" ↦ cardOld}`. -/
theorem load_roundtrip_witness :
    dfind (load_existing_cards ([("A1-001", cardOld)].map (fun p => p.2))) "A1-001" =
      dfind [("A1-001", cardOld)] "A1-001" :=
  load_roundtrip [("A1-001", cardOld)] (by decide) (by decide) (by decide) "A1-001"

/-! ## Ordering lemmas and claim C9 -/

theorem pyLtList_asymm : ∀ {a b : List Char}, pyLtList a b = true → pyLtList b a = false := by
  intro a
  induction a with
  | nil =>
    intro b h
    cases b with
    | nil => simp [pyLtList] at h
    | cons x xs => rfl
  | cons x xs ih =>
    intro b h
    cases b with
    | nil => simp [pyLtList] at h
    | cons y ys =>
      simp only [pyLtList] at h ⊢
      by_cases h1 : x.toNat < y.toNat
      · rw [if_neg (by omega), if_pos h1]
      · by_cases h2 : y.toNat < x.toNat
        · rw [if_neg h1, if_pos h2] at h
          exact absurd h (by simp)
        · rw [if_neg h1, if_neg h2] at h
          rw [if_neg h2, if_neg h1]
          exact ih h

theorem pyLtList_lt_of_lt_of_nlt : ∀ {c a b : List Char}, pyLtList c a = true →
    pyLtList b a = false → pyLtList c b = true := by
  intro c
  induction c with
  | nil =>
    intro a b hca hba
    cases a with
    | nil => simp [pyLtList] at hca
    | cons x xs =>
      cases b with
      | nil => simp [pyLtList] at hba
      | cons y ys => rfl
  | cons u us ih =>
    intro a b hca hba
    cases a with
    | nil => simp [pyLtList] at hca
    | cons x xs =>
      cases b with
      | nil => simp [pyLtList] at hba
      | cons y ys =>
        simp only [pyLtList] at hca hba ⊢
        by_cases h1 : u.toNat < x.toNat
        · by_cases h3 : y.toNat < x.toNat
          · rw [if_pos h3] at hba
            exact absurd hba (by simp)
          · by_cases h4 : x.toNat < y.toNat
            · rw [if_pos (by omega : u.toNat < y.toNat)]
            · rw [if_pos (by omega : u.toNat < y.toNat)]
        · by_cases h2 : x.toNat < u.toNat
          · rw [if_neg h1, if_pos h2] at hca
            exact absurd hca (by simp)
          · rw [if_neg h1, if_neg h2] at hca
            by_cases h3 : y.toNat < x.toNat
            · rw [if_pos h3] at hba
              exact absurd hba (by simp)
            · by_cases h4 : x.toNat < y.toNat
              · rw [if_pos (by omega : u.toNat < y.toNat)]
              · rw [if_neg h3, if_neg h4] at hba
                rw [if_neg (by omega : ¬ u.toNat < y.toNat),
                  if_neg (by omega : ¬ y.toNat < u.toNat)]
                exact ih hca hba

theorem pyLe_total (a b : String) : pyLe a b = true ∨ pyLe b a = true := by
  unfold pyLe
  by_cases h : pyLtList b.data a.data = true
  · right
    rw [pyLtList_asymm h]
    rfl
  · left
    rw [Bool.eq_false_iff.mpr h]
    rfl

theorem pyLe_trans {a b c : String} (hab : pyLe a b = true) (hbc : pyLe b c = true) :
    pyLe a c = true := by
  unfold pyLe at hab hbc ⊢
  rw [Bool.not_eq_true'] at hab hbc
  rw [Bool.not_eq_true']
  cases hx : pyLtList c.data a.data with
  | false => rfl
  | true => exact absurd (pyLtList_lt_of_lt_of_nlt hx hab) (by rw [hbc]; simp)

theorem mem_insertById {c y : PokemonCard} :
    ∀ {l : List PokemonCard}, y ∈ insertById c l ↔ y = c ∨ y ∈ l := by
  intro l
  induction l with
  | nil => simp [insertById]
  | cons x xs ih =>
    simp only [insertById]
    by_cases hx : pyLe x.id c.id = true
    · rw [if_pos hx]
      simp only [List.mem_cons, ih]
      tauto
    · rw [if_neg hx]
      simp only [List.mem_cons]

theorem pairwise_insertById {c : PokemonCard} {l : List PokemonCard}
    (h : List.Pairwise (fun a b => pyLe a.id b.id = true) l) :
    List.Pairwise (fun a b => pyLe a.id b.id = true) (insertById c l) := by
  induction l with
  | nil => simp [insertById]
  | cons x xs ih =>
    simp only [insertById]
    by_cases hx : pyLe x.id c.id = true
    · rw [if_pos hx]
      rcases List.pairwise_cons.mp h with ⟨hxall, hxs⟩
      apply List.Pairwise.cons
      · intro y hy
        rcases mem_insertById.mp hy with rfl | hy'
        · exact hx
        · exact hxall y hy'
      · exact ih hxs
    · rw [if_neg hx]
      have hcx : pyLe c.id x.id = true := by
        rcases pyLe_total c.id x.id with h1 | h1
        · exact h1
        · exact absurd h1 hx
      apply List.Pairwise.cons
      · intro y hy
        rcases List.mem_cons.mp hy with rfl | hy'
        · exact hcx
        · rcases List.pairwise_cons.mp h with ⟨hxall, _⟩
          exact pyLe_trans hcx (hxall y hy')
      · exact h

theorem sortById_pairwise (l : List PokemonCard) :
    List.Pairwise (fun a b => pyLe a.id b.id = true) (sortById l) := by
  unfold sortById
  induction l with
  | nil => simp
  | cons c t ih =>
    rw [List.foldr_cons]
    exact pairwise_insertById ih

theorem pyLtList_append (u v w : List Char) : pyLtList (u ++ v) (u ++ w) = pyLtList v w := by
  induction u with
  | nil => rfl
  | cons a us ih =>
    show pyLtList (a :: (us ++ v)) (a :: (us ++ w)) = _
    simp only [pyLtList]
    rw [if_neg (Nat.lt_irrefl _), if_neg (Nat.lt_irrefl _)]
    exact ih

theorem isDig_bounds {c : Char} (h : isDig c = true) : 48 ≤ c.toNat ∧ c.toNat ≤ 57 := by
  simpa [isDig] using h

theorem num_pad_of_all_dig (n : String) : (num_pad_of n).all isDig = true := by
  simp only [num_pad_of]
  split_ifs with h1 h2
  · rw [zfill3, List.all_append]
    rw [Bool.and_eq_true]
    refine ⟨?_, h1.2⟩
    rw [List.all_eq_true]
    intro x hx
    rw [List.eq_of_mem_replicate hx]
    decide
  · rw [zfill3, List.all_append]
    rw [Bool.and_eq_true]
    refine ⟨?_, ?_⟩
    · rw [List.all_eq_true]
      intro x hx
      rw [List.eq_of_mem_replicate hx]
      decide
    · rw [List.all_eq_true]
      intro x hx
      exact (List.mem_filter.mp hx).2
  · decide

theorem digitsToNat_zfill3 (l : List Char) : digitsToNat (zfill3 l) = digitsToNat l := by
  unfold zfill3 digitsToNat
  rw [List.foldl_append]
  have hz : ∀ n : Nat, List.foldl (fun a c => 10 * a + (c.toNat - 48)) 0
      (List.replicate n '0') = 0 := by
    intro n
    induction n with
    | zero => rfl
    | succ m ihm =>
      rw [List.replicate_succ, List.foldl_cons]
      have h0 : (10 * 0 + ('0'.toNat - 48)) = 0 := by decide
      rw [h0]
      exact ihm
  rw [hz]

theorem number_value_eq_digitsToNat_pad (n : String) :
    number_value_of n = digitsToNat (num_pad_of n) := by
  simp only [number_value_of, num_pad_of]
  split_ifs with h1 h2
  · rw [digitsToNat_zfill3]
  · rw [digitsToNat_zfill3]
  · decide

theorem pyLt_digits3 {p q : List Char} (hp3 : p.length = 3) (hq3 : q.length = 3)
    (hpd : p.all isDig = true) (hqd : q.all isDig = true) :
    pyLtList p q = true ↔ digitsToNat p < digitsToNat q := by
  rcases List.length_eq_three.mp hp3 with ⟨a, b, c, rfl⟩
  rcases List.length_eq_three.mp hq3 with ⟨d, e, f, rfl⟩
  simp only [List.all_cons, List.all_nil, Bool.and_eq_true, and_true] at hpd hqd
  obtain ⟨ha1, ha2⟩ := isDig_bounds hpd.1
  obtain ⟨hb1, hb2⟩ := isDig_bounds hpd.2.1
  obtain ⟨hc1, hc2⟩ := isDig_bounds hpd.2.2
  obtain ⟨hd1, hd2⟩ := isDig_bounds hqd.1
  obtain ⟨he1, he2⟩ := isDig_bounds hqd.2.1
  obtain ⟨hf1, hf2⟩ := isDig_bounds hqd.2.2
  simp only [pyLtList, digitsToNat, List.foldl_cons, List.foldl_nil]
  split_ifs with h1 h2 h3 h4 h5 h6 <;> simp <;> omega

theorem pyLe_ids_iff {a b : RawCard} (hset : (from_json a).set = (from_json b).set)
    (hpa : (num_pad_of a.number).length = 3) (hpb : (num_pad_of b.number).length = 3) :
    (pyLe (from_json a).id (from_json b).id = true ↔
      (from_json a).number ≤ (from_json b).number) := by
  rw [from_json_set, from_json_set] at hset
  rw [from_json_id, from_json_id, from_json_number, from_json_number, ← hset]
  unfold pyLe
  have hdata : ∀ (s : String) (p : List Char),
      (s ++ "-" ++ (⟨p⟩ : String)).data = (s.data ++ ['-']) ++ p := by
    intro s p
    show (s.data ++ "-".data) ++ p = _
    rfl
  rw [hdata, hdata, pyLtList_append]
  rw [number_value_eq_digitsToNat_pad, number_value_eq_digitsToNat_pad]
  have hiff := pyLt_digits3 hpb hpa (num_pad_of_all_dig b.number) (num_pad_of_all_dig a.number)
  constructor
  · intro h
    rw [Bool.not_eq_true'] at h
    by_contra hcon
    rw [hiff.mpr (by omega)] at h
    exact absurd h (by simp)
  · intro h
    rw [Bool.not_eq_true']
    cases hx : pyLtList (num_pad_of b.number) (num_pad_of a.number) with
    | false => rfl
    | true => exact absurd (hiff.mp hx) (by omega)

/-- C9 (amended): the persisted catalog sequence produced by `main` is sorted
by the Python string order on the CanonicalID; and for two canonicalized
records sharing a set code the id order coincides with the numeric order of
their card numbers whenever both padded numbers have the standard width 3.
(With a four-digit number the coincidence fails, see
`persisted_order_counterexample`: `"A1-1000"` sorts before `"A1-200"`.) -/
theorem persisted_order (merged : List (String × PokemonCard)) :
    List.Pairwise (fun a b => pyLe a.id b.id = true) (persisted_catalog merged) ∧
    ∀ a b : RawCard, (from_json a).set = (from_json b).set →
      (num_pad_of a.number).length = 3 → (num_pad_of b.number).length = 3 →
      (pyLe (from_json a).id (from_json b).id = true ↔
        (from_json a).number ≤ (from_json b).number) :=
  ⟨sortById_pairwise _, fun _ _ hset hpa hpb => pyLe_ids_iff hset hpa hpb⟩

/-- Counterexample for C9 as stated: two records of set `"A1"` with numbers
`1000` and `200`; the id `"A1-1000"` precedes `"A1-200"` in string order even
though `1000 > 200`. -/
theorem persisted_order_counterexample :
    (from_json (mkRaw "A1" "1000" "")).set = (from_json (mkRaw "A1" "200" "")).set ∧
      pyLe (from_json (mkRaw "A1" "1000" "")).id (from_json (mkRaw "A1" "200" "")).id = true ∧
      ¬((from_json (mkRaw "A1" "1000" "")).number ≤ (from_json (mkRaw "A1" "200" "")).number) := by
  decide

/-- Witness for C9 at records `"A1"`/`"7"` and `"A1"`/`"12"` and a two-entry
catalog. -/
theorem persisted_order_witness :
    (pyLe (from_json (mkRaw "A1" "7" "")).id (from_json (mkRaw "A1" "12" "")).id = true ↔
      (from_json (mkRaw "A1" "7" "")).number ≤ (from_json (mkRaw "A1" "12" "")).number) :=
  (persisted_order [("A1-001", cardOld), ("A2-005", cardOther)]).2
    (mkRaw "A1" "7" "") (mkRaw "A1" "12" "") (by decide) (by decide) (by decide)
